import Mathlib

/-!
Verification development for the websocket benchmarking harness.

Bytes are modelled as natural numbers below 256 in a `List Nat`; the two
8-byte floating-point timestamp fields of the wire frame are modelled by
their 64-bit patterns (a `Nat` below `2 ^ 64`), since the codec only moves
those 8 bytes around and `time.perf_counter` readings are non-negative
finite doubles, whose numeric order coincides with the order of their bit
patterns.  Latency and throughput arithmetic is modelled over `ℚ`.
-/

namespace WsBench

/-- Little-endian serialization of `n` into `k` bytes, as done by
`struct.pack` with unsigned integer codes on a little-endian machine. -/
def packLE : Nat → Nat → List Nat
  | 0, _ => []
  | k + 1, n => n % 256 :: packLE k (n / 256)

/-- Little-endian deserialization of a byte list, as done by `struct.unpack`
with unsigned integer codes. -/
def unpackLE : List Nat → Nat
  | [] => 0
  | b :: rest => b + 256 * unpackLE rest

theorem packLE_length (k n : Nat) : (packLE k n).length = k := by
  induction k generalizing n with
  | zero => rfl
  | succ k ih => simp [packLE, ih]

theorem unpackLE_packLE (k n : Nat) (h : n < 256 ^ k) :
    unpackLE (packLE k n) = n := by
  induction k generalizing n with
  | zero => simp [pow_zero] at h; simp [packLE, unpackLE, h]
  | succ k ih =>
      have hdiv : n / 256 < 256 ^ k := by
        rw [Nat.div_lt_iff_lt_mul (by norm_num)]
        calc n < 256 ^ (k + 1) := h
        _ = 256 ^ k * 256 := by ring
      simp [packLE, unpackLE, ih _ hdiv, Nat.mod_add_div]

/-- Message id parsed from the first 4 bytes of a response frame
(`struct.unpack` of the `I` field in `=IddI`). -/
def headId (r : List Nat) : Nat := unpackLE (r.take 4)

/-- Bit pattern of the `server_recv_time` double, bytes 4..11 of the frame. -/
def headRecvTime (r : List Nat) : Nat := unpackLE ((r.drop 4).take 8)

/-- Bit pattern of the `server_send_time` double, bytes 12..19 of the frame. -/
def headSendTime (r : List Nat) : Nat := unpackLE ((r.drop 12).take 8)

/-- Declared payload length, bytes 20..23 of the frame. -/
def declaredLen (r : List Nat) : Nat := unpackLE ((r.drop 20).take 4)

/-- Failure taxonomy of the response parser (spec section 7). -/
inductive ParseError where
  | MalformedFrame : ParseError
  | IdentifierMismatch : ParseError
  | LengthMismatch : ParseError
deriving DecidableEq

/-- True when `expected_msg_id` was supplied and differs from the parsed id,
mirroring `expected_msg_id is not None and msg_id != expected_msg_id`. -/
def idMismatch (expected_msg_id : Option Nat) (msg_id : Nat) : Bool :=
  match expected_msg_id with
  | some e => decide (msg_id ≠ e)
  | none => false

/-- Embedding of `parse_and_verify_response` from
`tests/benchmark_server_timestamp.py`: reject frames shorter than 24 bytes,
parse the `=IddI` header, check the optional expected id, check the declared
length against the trailing byte count, and (when content verification is
requested) check the trailing byte count against `expected_payload_len + 4`. -/
def parse_and_verify_response (response : List Nat) (expected_payload_len : Nat)
    (expected_msg_id : Option Nat) (verify_content : Bool) :
    Except ParseError (Nat × Nat × Nat) :=
  if response.length < 24 then
    .error .MalformedFrame
  else
    let msg_id := headId response
    let server_recv_time := headRecvTime response
    let server_send_time := headSendTime response
    let message_len := declaredLen response
    let actual_message := response.drop 24
    if idMismatch expected_msg_id msg_id then
      .error .IdentifierMismatch
    else if actual_message.length ≠ message_len then
      .error .LengthMismatch
    else if verify_content = true ∧ actual_message.length ≠ expected_payload_len + 4 then
      .error .LengthMismatch
    else
      .ok (msg_id, server_recv_time, server_send_time)

/-- Client-to-server framing: the 4-byte message id followed by the payload,
as built by `struct.pack("=I", msg_id) + base_message` in the drivers. -/
def encode (message_id : Nat) (payload : List Nat) : List Nat :=
  packLE 4 message_id ++ payload

/-- Server response frame, as built by
`struct.pack("=IddI", msg_id, recv, send, len(msg)) + msg` in
`echo_with_timestamps`. -/
def serialize_response (message_id server_recv_time server_send_time : Nat)
    (payload : List Nat) : List Nat :=
  packLE 4 message_id ++ (packLE 8 server_recv_time ++ (packLE 8 server_send_time ++
    (packLE 4 payload.length ++ payload)))

theorem serialize_response_length (id tr ts : Nat) (p : List Nat) :
    (serialize_response id tr ts p).length = 24 + p.length := by
  simp [serialize_response, packLE_length]; omega

theorem headId_serialize (id tr ts : Nat) (p : List Nat) (hid : id < 2 ^ 32) :
    headId (serialize_response id tr ts p) = id := by
  rw [headId, serialize_response, List.take_left' (packLE_length 4 id),
    unpackLE_packLE 4 id (by norm_num at hid ⊢; omega)]

theorem drop4_serialize (id tr ts : Nat) (p : List Nat) :
    (serialize_response id tr ts p).drop 4 =
      packLE 8 tr ++ (packLE 8 ts ++ (packLE 4 p.length ++ p)) := by
  rw [serialize_response, List.drop_left' (packLE_length 4 id)]

theorem drop12_serialize (id tr ts : Nat) (p : List Nat) :
    (serialize_response id tr ts p).drop 12 =
      packLE 8 ts ++ (packLE 4 p.length ++ p) := by
  rw [show (12 : Nat) = 4 + 8 from rfl, ← List.drop_drop, drop4_serialize,
    List.drop_left' (packLE_length 8 tr)]

theorem drop20_serialize (id tr ts : Nat) (p : List Nat) :
    (serialize_response id tr ts p).drop 20 = packLE 4 p.length ++ p := by
  rw [show (20 : Nat) = 12 + 8 from rfl, ← List.drop_drop, drop12_serialize,
    List.drop_left' (packLE_length 8 ts)]

theorem drop24_serialize (id tr ts : Nat) (p : List Nat) :
    (serialize_response id tr ts p).drop 24 = p := by
  rw [show (24 : Nat) = 20 + 4 from rfl, ← List.drop_drop, drop20_serialize,
    List.drop_left' (packLE_length 4 p.length)]

theorem headRecvTime_serialize (id tr ts : Nat) (p : List Nat) (htr : tr < 2 ^ 64) :
    headRecvTime (serialize_response id tr ts p) = tr := by
  rw [headRecvTime, drop4_serialize, List.take_left' (packLE_length 8 tr),
    unpackLE_packLE 8 tr (by norm_num at htr ⊢; omega)]

theorem headSendTime_serialize (id tr ts : Nat) (p : List Nat) (hts : ts < 2 ^ 64) :
    headSendTime (serialize_response id tr ts p) = ts := by
  rw [headSendTime, drop12_serialize, List.take_left' (packLE_length 8 ts),
    unpackLE_packLE 8 ts (by norm_num at hts ⊢; omega)]

theorem declaredLen_serialize (id tr ts : Nat) (p : List Nat) (hp : p.length < 2 ^ 32) :
    declaredLen (serialize_response id tr ts p) = p.length := by
  rw [declaredLen, drop20_serialize, List.take_left' (packLE_length 4 p.length),
    unpackLE_packLE 4 p.length (by norm_num at hp ⊢; omega)]

/-- C1: `parse_and_verify_response` follows the spec's failure taxonomy, in
order: total length < 24 gives `MalformedFrame`; otherwise a supplied
`expected_msg_id` differing from the parsed id gives `IdentifierMismatch`;
otherwise a declared-length/trailing-length disagreement, or (under content
verification) a trailing length other than `expected_payload_len + 4`, gives
`LengthMismatch`; otherwise the parsed header triple is returned. -/
theorem parse_and_verify_response_taxonomy (r : List Nat) (epl : Nat)
    (emi : Option Nat) (vc : Bool) :
    (r.length < 24 → parse_and_verify_response r epl emi vc = .error .MalformedFrame)
    ∧ (24 ≤ r.length → ∀ e, emi = some e → headId r ≠ e →
        parse_and_verify_response r epl emi vc = .error .IdentifierMismatch)
    ∧ (24 ≤ r.length → (∀ e, emi = some e → headId r = e) →
        ((r.drop 24).length ≠ declaredLen r ∨ (vc = true ∧ (r.drop 24).length ≠ epl + 4)) →
        parse_and_verify_response r epl emi vc = .error .LengthMismatch)
    ∧ (24 ≤ r.length → (∀ e, emi = some e → headId r = e) →
        (r.drop 24).length = declaredLen r →
        (vc = true → (r.drop 24).length = epl + 4) →
        parse_and_verify_response r epl emi vc =
          .ok (headId r, headRecvTime r, headSendTime r)) := by
  refine ⟨fun h => ?_, fun h e he hne => ?_, fun h hid hlen => ?_, fun h hid hl1 hl2 => ?_⟩
  · simp [parse_and_verify_response, h]
  · have hmm : idMismatch emi (headId r) = true := by
      subst he; simp [idMismatch, hne]
    simp [parse_and_verify_response, Nat.not_lt.mpr h, hmm]
  · have hmm : idMismatch emi (headId r) = false := by
      cases emi with
      | none => rfl
      | some e => simp [idMismatch, hid e rfl]
    simp only [List.length_drop] at hlen
    rcases hlen with hlen | ⟨hvc, hlen⟩
    · simp [parse_and_verify_response, Nat.not_lt.mpr h, hmm, hlen]
    · by_cases hl : r.length - 24 = declaredLen r
      · simp [parse_and_verify_response, Nat.not_lt.mpr h, hmm, hl, hvc, hl ▸ hlen]
      · simp [parse_and_verify_response, Nat.not_lt.mpr h, hmm, hl]
  · have hmm : idMismatch emi (headId r) = false := by
      cases emi with
      | none => rfl
      | some e => simp [idMismatch, hid e rfl]
    simp only [List.length_drop] at hl1 hl2
    cases vc with
    | false => simp [parse_and_verify_response, Nat.not_lt.mpr h, hmm, hl1]
    | true => simp [parse_and_verify_response, Nat.not_lt.mpr h, hmm, hl1, hl1 ▸ hl2 rfl]

/-- Concrete instance of C1: a 1-byte response is rejected as malformed. -/
theorem parse_and_verify_response_taxonomy_witness :
    parse_and_verify_response [0] 0 none false = .error .MalformedFrame :=
  (parse_and_verify_response_taxonomy [0] 0 none false).1 (by decide)

/-- C2: round-trip of the wire frame.  Decoding the response frame built by
the echo responder's serialization recovers `(id, t_recv, t_send)` exactly,
for every `id < 2 ^ 32`, every pair of 64-bit timestamp patterns, and every
payload shorter than `2 ^ 32` bytes; with content verification requested and
a matching expected id, the same holds whenever the payload length is
`expected_payload_len + 4`. -/
theorem decode_serialize_roundtrip (id trecv tsend : Nat) (payload : List Nat)
    (epl : Nat) (hid : id < 2 ^ 32) (htr : trecv < 2 ^ 64) (hts : tsend < 2 ^ 64)
    (hp : payload.length < 2 ^ 32) :
    parse_and_verify_response (serialize_response id trecv tsend payload) epl none false
      = .ok (id, trecv, tsend)
    ∧ (payload.length = epl + 4 →
        parse_and_verify_response (serialize_response id trecv tsend payload) epl
          (some id) true = .ok (id, trecv, tsend)) := by
  have hr := serialize_response_length id trecv tsend payload
  have h24 : 24 ≤ (serialize_response id trecv tsend payload).length := by omega
  have hdl : ((serialize_response id trecv tsend payload).drop 24).length
      = declaredLen (serialize_response id trecv tsend payload) := by
    rw [drop24_serialize, declaredLen_serialize id trecv tsend payload hp]
  constructor
  · rw [(parse_and_verify_response_taxonomy _ epl none false).2.2.2 h24
      (fun e he => Option.noConfusion he) hdl (fun hx => absurd hx Bool.false_ne_true),
      headId_serialize id trecv tsend payload hid,
      headRecvTime_serialize id trecv tsend payload htr,
      headSendTime_serialize id trecv tsend payload hts]
  · intro hple
    have hide : ∀ e, (some id : Option Nat) = some e →
        headId (serialize_response id trecv tsend payload) = e := by
      intro e he
      cases he
      exact headId_serialize id trecv tsend payload hid
    rw [(parse_and_verify_response_taxonomy _ epl (some id) true).2.2.2 h24 hide hdl
      (fun _ => by rw [drop24_serialize]; exact hple),
      headId_serialize id trecv tsend payload hid,
      headRecvTime_serialize id trecv tsend payload htr,
      headSendTime_serialize id trecv tsend payload hts]

/-- Concrete instance of C2: id 7, timestamp patterns 1 and 2, a 5-byte
payload, decoded both without and with content verification. -/
theorem decode_serialize_roundtrip_witness :
    parse_and_verify_response (serialize_response 7 1 2 [9, 9, 9, 9, 9]) 1 none false
      = .ok (7, 1, 2)
    ∧ parse_and_verify_response (serialize_response 7 1 2 [9, 9, 9, 9, 9]) 1
        (some 7) true = .ok (7, 1, 2) :=
  ⟨(decode_serialize_roundtrip 7 1 2 [9, 9, 9, 9, 9] 1 (by norm_num) (by norm_num)
      (by norm_num) (by norm_num)).1,
   (decode_serialize_roundtrip 7 1 2 [9, 9, 9, 9, 9] 1 (by norm_num) (by norm_num)
      (by norm_num) (by norm_num)).2 (by norm_num)⟩

theorem headId_eq_of_take24 (r₁ r₂ : List Nat) (h : r₁.take 24 = r₂.take 24) :
    headId r₁ = headId r₂ := by
  unfold headId
  rw [show (4 : Nat) = min 4 24 from rfl, ← List.take_take, h, List.take_take]

theorem headRecvTime_eq_of_take24 (r₁ r₂ : List Nat) (h : r₁.take 24 = r₂.take 24) :
    headRecvTime r₁ = headRecvTime r₂ := by
  have key : ∀ r : List Nat, (r.drop 4).take 8 = ((r.take 24).drop 4).take 8 := by
    intro r
    rw [List.drop_take, List.take_take]
    norm_num
  unfold headRecvTime
  rw [key r₁, key r₂, h]

theorem headSendTime_eq_of_take24 (r₁ r₂ : List Nat) (h : r₁.take 24 = r₂.take 24) :
    headSendTime r₁ = headSendTime r₂ := by
  have key : ∀ r : List Nat, (r.drop 12).take 8 = ((r.take 24).drop 12).take 8 := by
    intro r
    rw [List.drop_take, List.take_take]
    norm_num
  unfold headSendTime
  rw [key r₁, key r₂, h]

theorem declaredLen_eq_of_take24 (r₁ r₂ : List Nat) (h : r₁.take 24 = r₂.take 24) :
    declaredLen r₁ = declaredLen r₂ := by
  have key : ∀ r : List Nat, (r.drop 20).take 4 = ((r.take 24).drop 20).take 4 := by
    intro r
    rw [List.drop_take, List.take_take]
    norm_num
  unfold declaredLen
  rw [key r₁, key r₂, h]

/-- C10: `parse_and_verify_response` never inspects the payload bytes.  Any
two responses that agree on their first 24 header bytes and whose trailing
parts have equal length produce the same result (the same parsed triple or
the same error), for every `expected_payload_len`, `expected_msg_id` and
content-verification flag. -/
theorem parse_and_verify_response_payload_oblivious (r₁ r₂ : List Nat)
    (epl : Nat) (emi : Option Nat) (vc : Bool)
    (hhead : r₁.take 24 = r₂.take 24)
    (htail : (r₁.drop 24).length = (r₂.drop 24).length) :
    parse_and_verify_response r₁ epl emi vc = parse_and_verify_response r₂ epl emi vc := by
  have hlen : r₁.length = r₂.length := by
    have e1 : r₁.length = (r₁.take 24).length + (r₁.drop 24).length := by
      rw [← List.length_append, List.take_append_drop]
    have e2 : r₂.length = (r₂.take 24).length + (r₂.drop 24).length := by
      rw [← List.length_append, List.take_append_drop]
    rw [e1, e2, hhead, htail]
  simp only [parse_and_verify_response, hlen,
    headId_eq_of_take24 r₁ r₂ hhead, headRecvTime_eq_of_take24 r₁ r₂ hhead,
    headSendTime_eq_of_take24 r₁ r₂ hhead, declaredLen_eq_of_take24 r₁ r₂ hhead,
    List.length_drop]

/-- Concrete instance of C10: two frames identical in the header but with
different trailing bytes parse to the same outcome. -/
theorem parse_and_verify_response_payload_oblivious_witness :
    parse_and_verify_response
        [0, 0, 0, 0, 0, 0, 0, 0, 0, 0, 0, 0, 0, 0, 0, 0, 0, 0, 0, 0, 1, 0, 0, 0, 5]
        0 none false
      = parse_and_verify_response
        [0, 0, 0, 0, 0, 0, 0, 0, 0, 0, 0, 0, 0, 0, 0, 0, 0, 0, 0, 0, 1, 0, 0, 0, 200]
        0 none false :=
  parse_and_verify_response_payload_oblivious _ _ 0 none false (by decide) (by decide)

/-- Message id extracted by the echo responder: the first 4 bytes as an
unsigned integer when the message has at least 4 bytes, else 0 (warm-up). -/
def msgIdOf (m : List Nat) : Nat :=
  if 4 ≤ m.length then unpackLE (m.take 4) else 0

/-- Embedding of the `echo_with_timestamps` handler loop from
`tests/benchmark_server_timestamp.py`, one connection: for each inbound
message it samples `server_recv_time` from the monotonic clock, extracts the
message id, samples `server_send_time`, and emits the packed header followed
by the original message bytes.  The clock is modelled as a sequence of
sample values consumed in order; `k` is the index of the next sample. -/
def echoLoop (clock : Nat → Nat) (k : Nat) : List (List Nat) → List (List Nat)
  | [] => []
  | m :: rest =>
    let server_recv_time := clock k
    let msg_id := msgIdOf m
    let server_send_time := clock (k + 1)
    let response := serialize_response msg_id server_recv_time server_send_time m
    response :: echoLoop clock (k + 2) rest

theorem echoLoop_getElem (clock : Nat → Nat) (ms : List (List Nat)) :
    ∀ (k i : Nat) (m : List Nat), ms[i]? = some m →
      (echoLoop clock k ms)[i]? =
        some (serialize_response (msgIdOf m) (clock (k + 2 * i)) (clock (k + 2 * i + 1)) m) := by
  induction ms with
  | nil => intro k i m hm; simp at hm
  | cons hd tl ih =>
      intro k i m hm
      cases i with
      | zero =>
          simp at hm
          subst hm
          simp [echoLoop]
      | succ j =>
          simp at hm
          have := ih (k + 2) j m hm
          simpa [echoLoop, Nat.mul_succ, Nat.add_assoc, Nat.add_comm, Nat.add_left_comm]
            using this

/-- C5: for every raw inbound message, the echo responder emits exactly the
header `(message_id, server_recv_time, server_send_time, len(m))` followed by
the original bytes of `m` unchanged, where `message_id` is the first 4 bytes
of `m` when `len(m) ≥ 4` and 0 otherwise; and because the two timestamps are
consecutive samples of a monotonic clock, `server_send_time ≥
server_recv_time` holds in every emitted frame. -/
theorem echo_with_timestamps_frames (clock : Nat → Nat) (hclock : Monotone clock)
    (ms : List (List Nat)) :
    (echoLoop clock 0 ms).length = ms.length
    ∧ ∀ (i : Nat) (m : List Nat), ms[i]? = some m →
        (echoLoop clock 0 ms)[i]? =
          some (packLE 4 (msgIdOf m) ++ (packLE 8 (clock (2 * i)) ++
            (packLE 8 (clock (2 * i + 1)) ++ (packLE 4 m.length ++ m))))
        ∧ clock (2 * i) ≤ clock (2 * i + 1)
        ∧ (4 ≤ m.length → msgIdOf m = unpackLE (m.take 4))
        ∧ (m.length < 4 → msgIdOf m = 0) := by
  have hlen : ∀ (k : Nat) (l : List (List Nat)), (echoLoop clock k l).length = l.length := by
    intro k l
    induction l generalizing k with
    | nil => rfl
    | cons h2 t2 ih2 => simp [echoLoop, ih2]
  constructor
  · exact hlen 0 ms
  · intro i m hm
    refine ⟨?_, hclock (Nat.le_succ _), fun h4 => by simp [msgIdOf, h4],
      fun h4 => by simp [msgIdOf, Nat.not_le.mpr h4]⟩
    have := echoLoop_getElem clock ms 0 i m hm
    simpa [serialize_response] using this

/-- Concrete instance of C5: the identity clock is monotone, and the first
frame for the message `[1, 0, 0, 0]` carries id 1, consecutive timestamps,
and the original bytes. -/
theorem echo_with_timestamps_frames_witness :
    ((echoLoop (fun n => n) 0 [[1, 0, 0, 0]]).length = 1
    ∧ (echoLoop (fun n => n) 0 [[1, 0, 0, 0]])[0]? =
        some (packLE 4 (msgIdOf [1, 0, 0, 0]) ++ (packLE 8 0 ++
          (packLE 8 1 ++ (packLE 4 4 ++ [1, 0, 0, 0]))))
    ∧ msgIdOf [1, 0, 0, 0] = 1) := by
  have h := echo_with_timestamps_frames (fun n => n) (fun a b hab => hab) [[1, 0, 0, 0]]
  have h2 := (h.2 0 [1, 0, 0, 0] (by decide)).1
  exact ⟨h.1, by simpa using h2, by decide⟩

/-- Counters and received-id set of the pipelined (sliding-window) driver in
`benchmark_websockets_async` / `benchmark_websocket_rs_async`. -/
structure PipState where
  sent : Nat
  recv : Nat
  received : Finset Nat
deriving DecidableEq

/-- Body of the window top-up inner loop, with an explicit iteration bound:
while `sent_count < num_messages` and `sent_count - recv_count <
max_in_flight`, send one message and increment `sent_count`. -/
def topUpGo (max_in_flight num_messages : Nat) : Nat → PipState → PipState
  | 0, s => s
  | fuel + 1, s =>
    if s.sent < num_messages ∧ s.sent - s.recv < max_in_flight then
      topUpGo max_in_flight num_messages fuel ⟨s.sent + 1, s.recv, s.received⟩
    else s

/-- The window top-up inner loop.  The guard `sent_count < num_messages`
bounds the number of iterations by `num_messages - sent_count`, so running
the body with that much fuel is exactly the `while` loop. -/
def topUp (max_in_flight num_messages : Nat) (s : PipState) : PipState :=
  topUpGo max_in_flight num_messages (num_messages - s.sent) s

theorem topUpGo_recv (W N fuel : Nat) (s : PipState) :
    (topUpGo W N fuel s).recv = s.recv := by
  induction fuel generalizing s with
  | zero => rfl
  | succ fuel ih =>
      rw [topUpGo]
      split
      · rw [ih]
      · rfl

theorem topUpGo_received (W N fuel : Nat) (s : PipState) :
    (topUpGo W N fuel s).received = s.received := by
  induction fuel generalizing s with
  | zero => rfl
  | succ fuel ih =>
      rw [topUpGo]
      split
      · rw [ih]
      · rfl

theorem topUpGo_sent_mono (W N fuel : Nat) (s : PipState) :
    s.sent ≤ (topUpGo W N fuel s).sent := by
  induction fuel generalizing s with
  | zero => exact le_refl _
  | succ fuel ih =>
      rw [topUpGo]
      split
      · exact le_trans (Nat.le_succ _) (ih ⟨s.sent + 1, s.recv, s.received⟩)
      · exact le_refl _

theorem topUpGo_sent_le (W N fuel : Nat) (s : PipState) (h : s.sent ≤ N) :
    (topUpGo W N fuel s).sent ≤ N := by
  induction fuel generalizing s with
  | zero => exact h
  | succ fuel ih =>
      rw [topUpGo]
      split
      · next hg => exact ih ⟨s.sent + 1, s.recv, s.received⟩ (show s.sent + 1 ≤ N by omega)
      · exact h

theorem topUpGo_window (W N fuel : Nat) (s : PipState) (h : s.sent ≤ s.recv + W) :
    (topUpGo W N fuel s).sent ≤ s.recv + W := by
  induction fuel generalizing s with
  | zero => exact h
  | succ fuel ih =>
      rw [topUpGo]
      split
      · next hg =>
          exact ih ⟨s.sent + 1, s.recv, s.received⟩ (show s.sent + 1 ≤ s.recv + W by omega)
      · exact h

theorem topUp_recv (W N : Nat) (s : PipState) : (topUp W N s).recv = s.recv :=
  topUpGo_recv W N (N - s.sent) s

theorem topUp_received (W N : Nat) (s : PipState) : (topUp W N s).received = s.received :=
  topUpGo_received W N (N - s.sent) s

theorem topUp_sent_mono (W N : Nat) (s : PipState) : s.sent ≤ (topUp W N s).sent :=
  topUpGo_sent_mono W N (N - s.sent) s

theorem topUp_sent_le (W N : Nat) (s : PipState) (h : s.sent ≤ N) :
    (topUp W N s).sent ≤ N :=
  topUpGo_sent_le W N (N - s.sent) s h

theorem topUp_window (W N : Nat) (s : PipState) (h : s.sent ≤ s.recv + W) :
    (topUp W N s).sent ≤ s.recv + W :=
  topUpGo_window W N (N - s.sent) s h

theorem topUp_progress (W N : Nat) (s : PipState) (h1 : s.recv ≤ s.sent)
    (h2 : s.recv < N) (hW : 1 ≤ W) : s.recv < (topUp W N s).sent := by
  rcases Nat.lt_or_ge s.recv s.sent with h | h
  · exact lt_of_lt_of_le h (topUp_sent_mono W N s)
  · have hse : s.sent = s.recv := by omega
    have hfuel : N - s.sent = (N - s.sent - 1) + 1 := by omega
    rw [topUp, hfuel, topUpGo, if_pos ⟨by omega, by omega⟩]
    calc s.recv < s.sent + 1 := by omega
    _ ≤ _ := topUpGo_sent_mono W N (N - s.sent - 1) ⟨s.sent + 1, s.recv, s.received⟩

/-- Final state of the pipelined driver loop (lines 117-153 and 364-396 of
`tests/benchmark_server_timestamp.py`): while `recv_count < num_messages`,
top up the sliding window, then consume one response id from the
environment, increment `recv_count`, and abort on a duplicate or
out-of-range id.  The result is `none` when the run aborts, or blocks with
no response left; `some` is the state of a normally-completed loop. -/
def pipFinal (max_in_flight num_messages : Nat) (s : PipState) :
    List Nat → Option PipState
  | [] => if s.recv < num_messages then none else some s
  | recv_msg_id :: rest =>
    if s.recv < num_messages then
      if recv_msg_id ∈ (topUp max_in_flight num_messages s).received then none
      else if num_messages ≤ recv_msg_id then none
      else
        pipFinal max_in_flight num_messages
          ⟨(topUp max_in_flight num_messages s).sent,
            (topUp max_in_flight num_messages s).recv + 1,
            insert recv_msg_id (topUp max_in_flight num_messages s).received⟩ rest
    else some s

/-- Driver states at the observation points of the same loop: at the top of
each outer iteration, after the window top-up, after `recv_count += 1`, and
after recording the received id. -/
def pipTrace (max_in_flight num_messages : Nat) (s : PipState) :
    List Nat → List PipState
  | [] =>
    if s.recv < num_messages then [s, topUp max_in_flight num_messages s] else [s]
  | recv_msg_id :: rest =>
    if s.recv < num_messages then
      if recv_msg_id ∈ (topUp max_in_flight num_messages s).received then
        [s, topUp max_in_flight num_messages s,
          ⟨(topUp max_in_flight num_messages s).sent,
            (topUp max_in_flight num_messages s).recv + 1,
            (topUp max_in_flight num_messages s).received⟩]
      else if num_messages ≤ recv_msg_id then
        [s, topUp max_in_flight num_messages s,
          ⟨(topUp max_in_flight num_messages s).sent,
            (topUp max_in_flight num_messages s).recv + 1,
            (topUp max_in_flight num_messages s).received⟩,
          ⟨(topUp max_in_flight num_messages s).sent,
            (topUp max_in_flight num_messages s).recv + 1,
            insert recv_msg_id (topUp max_in_flight num_messages s).received⟩]
      else
        s :: topUp max_in_flight num_messages s ::
          ⟨(topUp max_in_flight num_messages s).sent,
            (topUp max_in_flight num_messages s).recv + 1,
            (topUp max_in_flight num_messages s).received⟩ ::
          ⟨(topUp max_in_flight num_messages s).sent,
            (topUp max_in_flight num_messages s).recv + 1,
            insert recv_msg_id (topUp max_in_flight num_messages s).received⟩ ::
          pipTrace max_in_flight num_messages
            ⟨(topUp max_in_flight num_messages s).sent,
              (topUp max_in_flight num_messages s).recv + 1,
              insert recv_msg_id (topUp max_in_flight num_messages s).received⟩ rest
    else [s]

/-- A full pipelined run from fresh counters, including the final
completeness check `len(received_ids) == num_messages`. -/
def pipRun (max_in_flight num_messages : Nat) (responses : List Nat) :
    Option PipState :=
  (pipFinal max_in_flight num_messages ⟨0, 0, ∅⟩ responses).bind
    (fun s => if s.received.card = num_messages then some s else none)

/-- Observation trace of a full pipelined run from fresh counters. -/
def pipRunTrace (max_in_flight num_messages : Nat) (responses : List Nat) :
    List PipState :=
  pipTrace max_in_flight num_messages ⟨0, 0, ∅⟩ responses

theorem pipLoop_sound (W N : Nat) (hW : 1 ≤ W) :
    ∀ (rs : List Nat) (s : PipState),
      s.recv ≤ s.sent → s.sent ≤ s.recv + W → s.sent ≤ N →
      s.received.card = s.recv → (∀ x ∈ s.received, x < N) →
      (∀ t ∈ pipTrace W N s rs, t.recv ≤ t.sent ∧ t.sent ≤ t.recv + W)
      ∧ (∀ f, pipFinal W N s rs = some f →
          f.recv = N ∧ f.received.card = N ∧ ∀ x ∈ f.received, x < N) := by
  intro rs
  induction rs with
  | nil =>
      intro s h1 h2 h3 h4 h5
      by_cases hrecv : s.recv < N
      · refine ⟨fun t ht => ?_, fun f hf => by simp [pipFinal, hrecv] at hf⟩
        rw [pipTrace, if_pos hrecv] at ht
        rcases List.mem_cons.mp ht with ht | ht
        · subst ht; exact ⟨h1, h2⟩
        · rcases List.mem_cons.mp ht with ht | ht
          · subst ht
            rw [topUp_recv]
            exact ⟨le_trans h1 (topUp_sent_mono W N s), topUp_window W N s h2⟩
          · simp at ht
      · refine ⟨fun t ht => ?_, fun f hf => ?_⟩
        · rw [pipTrace, if_neg hrecv] at ht
          rcases List.mem_cons.mp ht with ht | ht
          · subst ht; exact ⟨h1, h2⟩
          · simp at ht
        · rw [pipFinal, if_neg hrecv] at hf
          cases hf
          exact ⟨by omega, by omega, h5⟩
  | cons id rest ih =>
      intro s h1 h2 h3 h4 h5
      by_cases hrecv : s.recv < N
      · have hs1recv : (topUp W N s).recv = s.recv := topUp_recv W N s
        have hs1recd : (topUp W N s).received = s.received := topUp_received W N s
        have hs1mono : s.sent ≤ (topUp W N s).sent := topUp_sent_mono W N s
        have hs1le : (topUp W N s).sent ≤ N := topUp_sent_le W N s h3
        have hs1win : (topUp W N s).sent ≤ s.recv + W := topUp_window W N s h2
        have hs1prog : s.recv < (topUp W N s).sent := topUp_progress W N s h1 hrecv hW
        by_cases hdup : id ∈ (topUp W N s).received
        · refine ⟨fun t ht => ?_, fun f hf => ?_⟩
          · rw [pipTrace, if_pos hrecv, if_pos hdup] at ht
            rcases List.mem_cons.mp ht with ht | ht
            · subst ht; exact ⟨h1, h2⟩
            · rcases List.mem_cons.mp ht with ht | ht
              · subst ht; exact ⟨by omega, by omega⟩
              · rcases List.mem_cons.mp ht with ht | ht
                · subst ht; exact ⟨by simp; omega, by simp; omega⟩
                · simp at ht
          · rw [pipFinal, if_pos hrecv, if_pos hdup] at hf
            cases hf
        · by_cases hrange : N ≤ id
          · refine ⟨fun t ht => ?_, fun f hf => ?_⟩
            · rw [pipTrace, if_pos hrecv, if_neg hdup, if_pos hrange] at ht
              rcases List.mem_cons.mp ht with ht | ht
              · subst ht; exact ⟨h1, h2⟩
              · rcases List.mem_cons.mp ht with ht | ht
                · subst ht; exact ⟨by omega, by omega⟩
                · rcases List.mem_cons.mp ht with ht | ht
                  · subst ht; exact ⟨by simp; omega, by simp; omega⟩
                  · rcases List.mem_cons.mp ht with ht | ht
                    · subst ht; exact ⟨by simp; omega, by simp; omega⟩
                    · simp at ht
            · rw [pipFinal, if_pos hrecv, if_neg hdup, if_pos hrange] at hf
              cases hf
          · have hcard : (insert id (topUp W N s).received).card = s.recv + 1 := by
              rw [Finset.card_insert_of_not_mem hdup, hs1recd, h4]
            have helem : ∀ x ∈ insert id (topUp W N s).received, x < N := by
              intro x hx
              rcases Finset.mem_insert.mp hx with hx | hx
              · omega
              · exact h5 x (hs1recd ▸ hx)
            obtain ⟨ihtr, ihres⟩ := ih ⟨(topUp W N s).sent, (topUp W N s).recv + 1,
                insert id (topUp W N s).received⟩
              (by simp; omega) (by simp; omega) (by simp; omega)
              (by simp only [hs1recv]; simpa using hcard) (by simpa using helem)
            refine ⟨fun t ht => ?_, fun f hf => ?_⟩
            · rw [pipTrace, if_pos hrecv, if_neg hdup, if_neg hrange] at ht
              rcases List.mem_cons.mp ht with ht | ht
              · subst ht; exact ⟨h1, h2⟩
              · rcases List.mem_cons.mp ht with ht | ht
                · subst ht; exact ⟨by omega, by omega⟩
                · rcases List.mem_cons.mp ht with ht | ht
                  · subst ht; exact ⟨by simp; omega, by simp; omega⟩
                  · rcases List.mem_cons.mp ht with ht | ht
                    · subst ht; exact ⟨by simp; omega, by simp; omega⟩
                    · exact ihtr t ht
            · rw [pipFinal, if_pos hrecv, if_neg hdup, if_neg hrange] at hf
              exact ihres f hf
      · refine ⟨fun t ht => ?_, fun f hf => ?_⟩
        · rw [pipTrace, if_neg hrecv] at ht
          rcases List.mem_cons.mp ht with ht | ht
          · subst ht; exact ⟨h1, h2⟩
          · simp at ht
        · rw [pipFinal, if_neg hrecv] at hf
          cases hf
          exact ⟨by omega, by omega, h5⟩

/-- C3: in pipelined mode every observation point of the driver loop
satisfies `recv_count ≤ sent_count` and `sent_count - recv_count ≤
max_in_flight`, and a normally-completed run ends with `recv_count = N` and
`received_ids = {0, ..., N-1}`.  (Stated for `max_in_flight ≥ 1`; the code
uses `max_in_flight = 100`.) -/
theorem pipelined_window_invariant (W N : Nat) (rs : List Nat) (hW : 1 ≤ W) :
    (∀ t ∈ pipRunTrace W N rs, t.recv ≤ t.sent ∧ t.sent ≤ t.recv + W)
    ∧ (∀ f, pipRun W N rs = some f → f.recv = N ∧ f.received = Finset.range N) := by
  obtain ⟨htr, hres⟩ := pipLoop_sound W N hW rs ⟨0, 0, ∅⟩ (by simp) (by simp)
    (by simp) (by simp) (by simp)
  refine ⟨fun t ht => htr t ht, fun f hf => ?_⟩
  simp only [pipRun, Option.bind_eq_some] at hf
  obtain ⟨g, hg, hgf⟩ := hf
  obtain ⟨hrecvN, hcard, helem⟩ := hres g hg
  have hfg : g = f := by
    by_cases hc : g.received.card = N
    · simpa [hc] using hgf
    · simp [hc] at hgf
  subst hfg
  refine ⟨hrecvN, ?_⟩
  have hsub : g.received ⊆ Finset.range N := fun x hx => Finset.mem_range.mpr (helem x hx)
  exact Finset.eq_of_subset_of_card_le hsub (by rw [Finset.card_range, hcard])

/-- Concrete instance of C3 at the spec's example parameters
`max_in_flight = 3`, `N = 10` with in-order responses. -/
theorem pipelined_window_invariant_witness :
    (∀ t ∈ pipRunTrace 3 10 [0, 1, 2, 3, 4, 5, 6, 7, 8, 9],
        t.recv ≤ t.sent ∧ t.sent ≤ t.recv + 3)
    ∧ (∀ f, pipRun 3 10 [0, 1, 2, 3, 4, 5, 6, 7, 8, 9] = some f →
        f.recv = 10 ∧ f.received = Finset.range 10) :=
  pipelined_window_invariant 3 10 [0, 1, 2, 3, 4, 5, 6, 7, 8, 9] (by decide)

/-- Failure taxonomy of the session verifier (spec sections 4.4 and 7). -/
inductive VerifyError where
  | DuplicateIdentifier : Nat → VerifyError
  | IdentifierOutOfRange : Nat → VerifyError
  | MessageLoss : Nat → VerifyError
deriving DecidableEq

/-- Per-identifier pass of the verifier, mirroring the checks the drivers run
on each received response: a repeated identifier is fatal, an identifier
`≥ num_messages` is fatal, otherwise the identifier is recorded. -/
def verifyLoop (num_messages : Nat) (received_ids : Finset Nat) :
    List Nat → Except VerifyError (Finset Nat)
  | [] => .ok received_ids
  | recv_msg_id :: rest =>
    if recv_msg_id ∈ received_ids then .error (.DuplicateIdentifier recv_msg_id)
    else if num_messages ≤ recv_msg_id then .error (.IdentifierOutOfRange recv_msg_id)
    else verifyLoop num_messages (insert recv_msg_id received_ids) rest

/-- Verifier for a completed session: process every received identifier,
then require the count of distinct received identifiers to equal
`num_messages`, reporting the deficit otherwise
(`len(received_ids) != num_messages` in the drivers). -/
def verifySession (num_messages : Nat) (ids : List Nat) :
    Except VerifyError (Finset Nat) :=
  match verifyLoop num_messages ∅ ids with
  | .error e => .error e
  | .ok received_ids =>
    if received_ids.card = num_messages then .ok received_ids
    else .error (.MessageLoss (num_messages - received_ids.card))

theorem verifyLoop_clean (N : Nat) :
    ∀ (ids : List Nat) (acc : Finset Nat), ids.Nodup → (∀ y ∈ ids, y < N) →
      (∀ y ∈ ids, y ∉ acc) →
      verifyLoop N acc ids = .ok (acc ∪ ids.toFinset) := by
  intro ids
  induction ids with
  | nil => intro acc _ _ _; simp [verifyLoop]
  | cons x rest ih =>
      intro acc hnd hlt hdisj
      have hx : x ∉ acc := hdisj x (List.mem_cons_self x rest)
      have hxN : x < N := hlt x (List.mem_cons_self x rest)
      rw [verifyLoop, if_neg hx, if_neg (by omega)]
      rw [ih (insert x acc) (List.Nodup.of_cons hnd)
        (fun y hy => hlt y (List.mem_cons_of_mem x hy))
        (fun y hy => by
          rcases List.nodup_cons.mp hnd with ⟨hxr, _⟩
          intro hmem
          rcases Finset.mem_insert.mp hmem with h | h
          · exact hxr (h ▸ hy)
          · exact hdisj y (List.mem_cons_of_mem x hy) h)]
      congr 1
      ext z
      simp [Finset.mem_insert, List.mem_toFinset]

theorem verifyLoop_dup (N : Nat) :
    ∀ (pre : List Nat) (acc : Finset Nat) (x : Nat) (suf : List Nat),
      pre.Nodup → (∀ y ∈ pre, y < N) → (∀ y ∈ pre, y ∉ acc) →
      (x ∈ acc ∨ x ∈ pre) →
      verifyLoop N acc (pre ++ x :: suf) = .error (.DuplicateIdentifier x) := by
  intro pre
  induction pre with
  | nil =>
      intro acc x suf _ _ _ hx
      rcases hx with hx | hx
      · simp [verifyLoop, hx]
      · simp at hx
  | cons p rest ih =>
      intro acc x suf hnd hlt hdisj hx
      have hp : p ∉ acc := hdisj p (List.mem_cons_self p rest)
      have hpN : p < N := hlt p (List.mem_cons_self p rest)
      rw [List.cons_append, verifyLoop, if_neg hp, if_neg (by omega)]
      apply ih (insert p acc) x suf (List.Nodup.of_cons hnd)
        (fun y hy => hlt y (List.mem_cons_of_mem p hy))
        (fun y hy => by
          rcases List.nodup_cons.mp hnd with ⟨hpr, _⟩
          intro hmem
          rcases Finset.mem_insert.mp hmem with h | h
          · exact hpr (h ▸ hy)
          · exact hdisj y (List.mem_cons_of_mem p hy) h)
      rcases hx with hx | hx
      · exact Or.inl (Finset.mem_insert_of_mem hx)
      · rcases List.mem_cons.mp hx with hx | hx
        · exact Or.inl (hx ▸ Finset.mem_insert_self p acc)
        · exact Or.inr hx

theorem verifyLoop_range (N : Nat) :
    ∀ (pre : List Nat) (acc : Finset Nat) (x : Nat) (suf : List Nat),
      pre.Nodup → (∀ y ∈ pre, y < N) → (∀ y ∈ pre, y ∉ acc) →
      x ∉ acc → x ∉ pre → N ≤ x →
      verifyLoop N acc (pre ++ x :: suf) = .error (.IdentifierOutOfRange x) := by
  intro pre
  induction pre with
  | nil =>
      intro acc x suf _ _ _ hxa _ hxN
      simp [verifyLoop, hxa, hxN]
  | cons p rest ih =>
      intro acc x suf hnd hlt hdisj hxa hxp hxN
      have hp : p ∉ acc := hdisj p (List.mem_cons_self p rest)
      have hpN : p < N := hlt p (List.mem_cons_self p rest)
      rw [List.cons_append, verifyLoop, if_neg hp, if_neg (by omega)]
      apply ih (insert p acc) x suf (List.Nodup.of_cons hnd)
        (fun y hy => hlt y (List.mem_cons_of_mem p hy))
        (fun y hy => by
          rcases List.nodup_cons.mp hnd with ⟨hpr, _⟩
          intro hmem
          rcases Finset.mem_insert.mp hmem with h | h
          · exact hpr (h ▸ hy)
          · exact hdisj y (List.mem_cons_of_mem p hy) h)
        (by
          intro hmem
          rcases Finset.mem_insert.mp hmem with h | h
          · exact hxp (h ▸ List.mem_cons_self p rest)
          · exact hxa h)
        (fun hmem => hxp (List.mem_cons_of_mem p hmem)) hxN

/-- C4: verification of a completed session.  After any clean prefix of
distinct in-range identifiers, a second occurrence of an already-received
identifier fails with `DuplicateIdentifier` and an identifier `≥ N` fails
with `IdentifierOutOfRange`; and for a clean session whose distinct count
differs from `N`, the verifier fails with `MessageLoss` naming the deficit
`N - count`, while a clean session of exactly `N` identifiers passes. -/
theorem verifySession_contract (N : Nat) :
    (∀ (pre : List Nat) (x : Nat) (suf : List Nat),
      pre.Nodup → (∀ y ∈ pre, y < N) → x ∈ pre →
      verifySession N (pre ++ x :: suf) = .error (.DuplicateIdentifier x))
    ∧ (∀ (pre : List Nat) (x : Nat) (suf : List Nat),
      pre.Nodup → (∀ y ∈ pre, y < N) → x ∉ pre → N ≤ x →
      verifySession N (pre ++ x :: suf) = .error (.IdentifierOutOfRange x))
    ∧ (∀ ids : List Nat, ids.Nodup → (∀ y ∈ ids, y < N) → ids.length ≠ N →
      verifySession N ids = .error (.MessageLoss (N - ids.length)))
    ∧ (∀ ids : List Nat, ids.Nodup → (∀ y ∈ ids, y < N) → ids.length = N →
      verifySession N ids = .ok ids.toFinset) := by
  refine ⟨fun pre x suf hnd hlt hx => ?_, fun pre x suf hnd hlt hx hxN => ?_,
    fun ids hnd hlt hlen => ?_, fun ids hnd hlt hlen => ?_⟩
  · rw [verifySession,
      verifyLoop_dup N pre ∅ x suf hnd hlt (fun y _ => Finset.not_mem_empty y)
        (Or.inr hx)]
  · rw [verifySession,
      verifyLoop_range N pre ∅ x suf hnd hlt (fun y _ => Finset.not_mem_empty y)
        (Finset.not_mem_empty x) hx hxN]
  · rw [verifySession,
      verifyLoop_clean N ids ∅ hnd hlt (fun y _ => Finset.not_mem_empty y)]
    have hcard : (∅ ∪ ids.toFinset).card = ids.length := by
      rw [Finset.empty_union, List.toFinset_card_of_nodup hnd]
    simp only [hcard]
    rw [if_neg hlen]
  · rw [verifySession,
      verifyLoop_clean N ids ∅ hnd hlt (fun y _ => Finset.not_mem_empty y)]
    have hcard : (∅ ∪ ids.toFinset).card = ids.length := by
      rw [Finset.empty_union, List.toFinset_card_of_nodup hnd]
    simp only [hcard]
    rw [if_pos hlen, Finset.empty_union]

/-- Concrete instances of C4 at the spec's examples: a session over `N = 10`
missing id 7 loses one message, and a session delivering id 7 twice is a
duplicate. -/
theorem verifySession_contract_witness :
    verifySession 10 [0, 1, 2, 3, 4, 5, 6, 8, 9] = .error (.MessageLoss 1)
    ∧ verifySession 10 [0, 1, 2, 3, 4, 5, 6, 7, 7] = .error (.DuplicateIdentifier 7) :=
  ⟨by
    have h := (verifySession_contract 10).2.2.1 [0, 1, 2, 3, 4, 5, 6, 8, 9]
      (by decide) (by decide) (by decide)
    simpa using h,
   by
    have h := (verifySession_contract 10).1 [0, 1, 2, 3, 4, 5, 6, 7] 7 []
      (by decide) (by decide) (by decide)
    simpa using h⟩

/-- Embedding of `percentile` from `tests/benchmark_latency.py`: sort the
samples ascending, take `int(len * percent / 100)` as the index, and return
the last element when that index runs past the end.  Samples are modelled
over `ℚ`; for the non-negative `percent` values the harness uses, Python's
`int()` truncation is the floor, taken here through `Int.toNat`. -/
def percentile (data : List ℚ) (percent : ℚ) : Option ℚ :=
  let sorted_data := List.insertionSort (· ≤ ·) data
  let index := (⌊(sorted_data.length : ℚ) * percent / 100⌋).toNat
  if sorted_data.length ≤ index then sorted_data.getLast?
  else sorted_data[index]?

/-- C6: `percentile` computes the nearest-rank percentile: it sorts the
samples ascending (the sort is an ordered permutation of the input) and
returns the element at index `⌊percent / 100 * count⌋` clamped to the last
index, with no interpolation, and on a non-empty list it always returns a
value. -/
theorem percentile_nearest_rank (data : List ℚ) (p : ℚ) (hne : data ≠ []) :
    List.Sorted (· ≤ ·) (List.insertionSort (· ≤ ·) data)
    ∧ (List.insertionSort (· ≤ ·) data).Perm data
    ∧ percentile data p =
        (List.insertionSort (· ≤ ·) data)[min ((⌊(data.length : ℚ) * p / 100⌋).toNat)
          (data.length - 1)]?
    ∧ (percentile data p).isSome := by
  have hperm : (List.insertionSort (· ≤ ·) data).Perm data :=
    List.perm_insertionSort (· ≤ ·) data
  have hlen : (List.insertionSort (· ≤ ·) data).length = data.length := hperm.length_eq
  have hpos : 0 < data.length := List.length_pos.mpr hne
  refine ⟨List.sorted_insertionSort (· ≤ ·) data, hperm, ?_, ?_⟩
  · rw [percentile]
    simp only [hlen]
    by_cases hidx : data.length ≤ (⌊(data.length : ℚ) * p / 100⌋).toNat
    · rw [if_pos hidx, List.getLast?_eq_getElem?, hlen,
        Nat.min_eq_right (by omega)]
    · rw [if_neg hidx, Nat.min_eq_left (by omega)]
  · rw [percentile]
    simp only [hlen]
    by_cases hidx : data.length ≤ (⌊(data.length : ℚ) * p / 100⌋).toNat
    · rw [if_pos hidx]
      rw [List.getLast?_isSome]
      intro hnil
      rw [hnil] at hlen
      simp at hlen
      omega
    · rw [if_neg hidx]
      rw [List.getElem?_eq_getElem (by omega)]
      rfl

/-- Concrete instance of C6 at the spec's example: for samples
`[1, 2, 3, 4, 5]` the 95th percentile is the element at index
`⌊0.95 * 5⌋ = 4`, the value `5`. -/
theorem percentile_nearest_rank_witness :
    percentile [1, 2, 3, 4, 5] 95 = some 5 := by
  have h := (percentile_nearest_rank [1, 2, 3, 4, 5] 95 (by decide)).2.2.1
  have hfl : (⌊(([1, 2, 3, 4, 5] : List ℚ).length : ℚ) * 95 / 100⌋ : ℤ) = 4 := by
    norm_num
  rw [h, hfl]
  decide

/-- Throughput computation from `benchmark.py` (both drivers): total bytes
are `message_size * num_messages * 2`, the duration is the sum of the
per-message latencies (milliseconds) over 1000, and throughput is
`total_bytes * 8 / (duration * 1_000_000)` Mbps. -/
def throughput (message_size num_messages : Nat) (latencies : List ℚ) : ℚ :=
  let total_bytes : ℚ := (message_size : ℚ) * (num_messages : ℚ) * 2
  let duration : ℚ := latencies.sum / 1000
  total_bytes * 8 / (duration * 1000000)

/-- The spec's throughput formula, written from its words:
`(payload_size_bytes * message_count * 2 * 8) / (total_elapsed_seconds *
1_000_000)` megabits per second. -/
def specThroughputMbps (payload_size_bytes message_count : Nat)
    (total_elapsed_seconds : ℚ) : ℚ :=
  ((payload_size_bytes : ℚ) * (message_count : ℚ) * 2 * 8) /
    (total_elapsed_seconds * 1000000)

/-- C7: the throughput the code reports equals the spec's formula, with the
run's total elapsed measurement time being the sum of the measured
per-message latencies converted to seconds. -/
theorem throughput_matches_spec_formula (size n : Nat) (lats : List ℚ) :
    throughput size n lats = specThroughputMbps size n (lats.sum / 1000) := rfl

/-- The fields of `BenchmarkResult` (from `benchmark.py`) that the
comparator reads. -/
structure BenchmarkResult where
  message_size : Nat
  avg_latency_ms : ℚ
  throughput_mbps : ℚ

/-- Comparison record produced by `calculate_relative_performance`. -/
structure ComparisonResult where
  message_size : Nat
  latency_percentage : ℚ
  throughput_percentage : ℚ

/-- Embedding of `calculate_relative_performance` from `benchmark.py`:
relative latency and throughput of the candidate (`other_result`) against
the baseline (`rust_result`), as percentages. -/
def calculate_relative_performance (rust_result other_result : BenchmarkResult) :
    ComparisonResult :=
  { message_size := rust_result.message_size,
    latency_percentage := other_result.avg_latency_ms / rust_result.avg_latency_ms * 100,
    throughput_percentage := other_result.throughput_mbps / rust_result.throughput_mbps * 100 }

/-- C8: the comparator returns relative latency percentage
`candidate.mean / baseline.mean * 100` and relative throughput percentage
`candidate.throughput / baseline.throughput * 100`, keeps the baseline's
payload size, and is a pure function of its two inputs (it is a Lean
function of exactly those two records); at baseline mean 10 ms and candidate
mean 5 ms the relative latency percentage is 50. -/
theorem calculate_relative_performance_spec :
    (∀ baseline candidate : BenchmarkResult,
      (calculate_relative_performance baseline candidate).latency_percentage
        = candidate.avg_latency_ms / baseline.avg_latency_ms * 100
      ∧ (calculate_relative_performance baseline candidate).throughput_percentage
        = candidate.throughput_mbps / baseline.throughput_mbps * 100
      ∧ (calculate_relative_performance baseline candidate).message_size
        = baseline.message_size)
    ∧ (∀ (a b : Nat) (t u : ℚ),
      (calculate_relative_performance ⟨a, 10, t⟩ ⟨b, 5, u⟩).latency_percentage = 50) := by
  refine ⟨fun baseline candidate => ⟨rfl, rfl, rfl⟩, fun a b t u => ?_⟩
  show (5 : ℚ) / 10 * 100 = 50
  norm_num

/-- Per-message latency samples recorded by batch mode
(`benchmark_rust_batch` in `tests/benchmark_optimized.py`): for each
measured burst duration, `batch_size` copies of `batch_time / batch_size`
are appended. -/
def batchLatencies (batch_size : Nat) : List ℚ → List ℚ
  | [] => []
  | batch_time :: rest =>
    List.replicate batch_size (batch_time / (batch_size : ℚ)) ++
      batchLatencies batch_size rest

/-- C9: in batch mode, each of the `batch_size` messages of a burst is
recorded with exactly the measured burst duration divided by `batch_size`:
the sample at position `i * batch_size + j` equals `duration_i /
batch_size`, there are `batch_size` samples per burst, and the even
amortization conserves the total measured time. -/
theorem batch_amortization (B : Nat) (ts : List ℚ) :
    (batchLatencies B ts).length = B * ts.length
    ∧ (∀ (i : Nat) (t : ℚ) (j : Nat), ts[i]? = some t → j < B →
        (batchLatencies B ts)[i * B + j]? = some (t / (B : ℚ)))
    ∧ (0 < B → (batchLatencies B ts).sum = ts.sum) := by
  induction ts with
  | nil =>
      refine ⟨by simp [batchLatencies], fun i t j hit _ => by simp at hit,
        fun _ => by simp [batchLatencies]⟩
  | cons t0 rest ih =>
      obtain ⟨ihlen, ihget, ihsum⟩ := ih
      refine ⟨?_, ?_, ?_⟩
      · simp [batchLatencies, ihlen, Nat.mul_succ]
        omega
      · intro i t j hit hj
        cases i with
        | zero =>
            simp only [List.getElem?_cons_zero] at hit
            cases hit
            rw [batchLatencies, Nat.zero_mul, Nat.zero_add,
              List.getElem?_append_left (by simpa using hj)]
            simp [List.getElem?_replicate, hj]
        | succ i =>
            simp only [List.getElem?_cons_succ] at hit
            have hge : (List.replicate B (t0 / (B : ℚ))).length ≤ (i + 1) * B + j := by
              simp [Nat.succ_mul]
              omega
            rw [batchLatencies, List.getElem?_append_right hge]
            have harith : (i + 1) * B + j - (List.replicate B (t0 / (B : ℚ))).length
                = i * B + j := by
              simp [Nat.succ_mul]
              omega
            rw [harith]
            exact ihget i t j hit hj
      · intro hB
        have hB0 : (B : ℚ) ≠ 0 := Nat.cast_ne_zero.mpr (by omega)
        rw [batchLatencies, List.sum_append, ihsum hB, List.sum_replicate,
          nsmul_eq_mul, ← mul_div_assoc, mul_div_cancel_left₀ _ hB0, List.sum_cons]

/-- Concrete instance of C9: with `batch_size = 2` and burst durations
`[3, 5]` ms, the second message of the second burst is recorded as
`5 / 2` ms. -/
theorem batch_amortization_witness :
    (batchLatencies 2 [3, 5])[1 * 2 + 1]? = some (5 / 2) :=
  (batch_amortization 2 [3, 5]).2.1 1 5 1 rfl (by decide)

end WsBench
